import Mathlib

/-!
Shallow embedding of the exiftool-go host/guest bridge
(src/pkg/exiftool/exiftool.go) and proofs of its behavioural properties.

The guest WebAssembly module is external; it is modelled as an oracle
(`GuestOps` for the asyncify driver, `EvalModel` for the full session),
while all host-side control flow (the driver loop, `eval`, the public
operations, `Close`) is translated directly from the Go source.
-/

namespace ExifToolGo

/-- The byte written by binary.LittleEndian.PutUint32, as four bytes. -/
def putUint32LE (v : Nat) : List Nat :=
  [v % 256, v / 256 % 256, v / 65536 % 256, v / 16777216 % 256]

/-- Decode the first four bytes of a buffer as a little-endian 32-bit value. -/
def readUint32LE : List Nat → Nat
  | b0 :: b1 :: b2 :: b3 :: _ => b0 + 256 * b1 + 65536 * b2 + 16777216 * b3
  | _ => 0

/-- Asyncify constant: fixed guest address of the scratch data record (src line 26). -/
def dataAddr : Nat := 16

/-- Asyncify constant: initial dataStart bound (src line 27). -/
def dataStart : Nat := 24

/-- Asyncify constant: initial dataEnd bound, 1 MiB (src line 28). -/
def dataEnd : Nat := 1024 * 1024

/-- The 8-byte buffer written at `dataAddr` by the driver on every UNWINDING
observation (src lines 198-200): two little-endian 32-bit bounds. -/
def asyncifyDataBuffer : List Nat := putUint32LE dataStart ++ putUint32LE dataEnd

/-- Overwrite four bytes of a buffer at an offset with a little-endian 32-bit
value, modelling binary.LittleEndian.PutUint32 on a slice of a byte buffer. -/
def putUint32At (buf : List Nat) (off : Nat) (v : Nat) : List Nat :=
  buf.take off ++ putUint32LE v ++ buf.drop (off + 4)

/-- The buffer prepared during instantiation (src lines 128-130): an 8-byte
zero buffer with dataStart written at offset 0 and dataEnd at offset 4. -/
def setupAsyncifyBuffer : List Nat :=
  putUint32At (putUint32At (List.replicate 8 0) 0 dataStart) 4 dataEnd

/-- Host-visible events emitted by the embedded operations, used to state
ordering and frame properties (lock discipline, scratch-region writes,
allocation release, staged-file cleanup). -/
inductive Ev where
  | lock
  | unlock
  | bufReset
  | mallocCall (n : Nat)
  | freeCall (p : Nat)
  | memWrite (a : Nat) (b : List Nat)
  | invoke (args : List Nat)
  | stateEv (st : Nat)
  | stopUnwindEv
  | startRewindEv (a : Nat)
  | stopRewindEv
  | flushCall
  | hostRead (p : List Char)
  | hostWrite (p : List Char)
  | hostRemove (p : List Char)
  deriving DecidableEq, Repr

/-- Abstract interface of the guest module as seen by the asyncify driver:
one exported function plus the four suspend-machinery entry points and the
linear-memory write used to reset the scratch region. A call returns the
mutated guest state together with either result values or a trap. -/
structure GuestOps (σ : Type) where
  call : σ → List Nat → σ × Except Unit (List Nat)
  getState : σ → σ × Nat
  stopUnwind : σ → σ
  startRewind : σ → Nat → σ
  stopRewind : σ → σ
  memWrite : σ → Nat → List Nat → σ

/-- Embedding of callWithAsyncify (src lines 180-207). The Go loop is
unbounded; `fuel` bounds the number of iterations and `none` models the
call not returning within that bound. The switch statement has no default
case, so an execution state outside 0,1,2 falls through and re-invokes. -/
def callWithAsyncify (g : GuestOps σ) (args : List Nat) :
    Nat → σ → Option (σ × Except Unit (List Nat)) × List Ev
  | 0, _ => (none, [])
  | fuel + 1, s =>
    let c := g.call s args
    match c.2 with
    | .error e => (some (c.1, .error e), [.invoke args])
    | .ok results =>
      let q := g.getState c.1
      let pre : List Ev := [.invoke args, .stateEv q.2]
      if q.2 = 0 then
        (some (q.1, .ok results), pre)
      else if q.2 = 1 then
        let s3 := g.stopUnwind q.1
        let s4 := g.memWrite s3 dataAddr asyncifyDataBuffer
        let s5 := g.startRewind s4 dataAddr
        let r := callWithAsyncify g args fuel s5
        (r.1, pre ++ [.stopUnwindEv, .memWrite dataAddr asyncifyDataBuffer,
                      .startRewindEv dataAddr] ++ r.2)
      else if q.2 = 2 then
        (some (g.stopRewind q.1, .ok results), pre ++ [.stopRewindEv])
      else
        let r := callWithAsyncify g args fuel q.1
        (r.1, pre ++ r.2)

/-- Modelled from the spec (section 4.2, claim C1): the specified
yield/resume loop. Invoke; a trap is returned as a failure; then the
execution state is queried: NORMAL returns the results, UNWINDING stops
the unwind, resets the scratch region to its initial bounds, starts a
rewind seeded at the region address and re-invokes the same function with
the same arguments, REWINDING stops the rewind and returns the latest
results. The spec treats the state as tri-state, so other values are left
unspecified (modelled as divergence). -/
def driveToCompletion (g : GuestOps σ) (args : List Nat) :
    Nat → σ → Option (σ × Except Unit (List Nat)) × List Ev
  | 0, _ => (none, [])
  | fuel + 1, s =>
    let c := g.call s args
    match c.2 with
    | .error e => (some (c.1, .error e), [.invoke args])
    | .ok results =>
      let q := g.getState c.1
      let pre : List Ev := [.invoke args, .stateEv q.2]
      match q.2 with
      | 0 => (some (q.1, .ok results), pre)
      | 1 =>
        let s3 := g.stopUnwind q.1
        let s4 := g.memWrite s3 dataAddr asyncifyDataBuffer
        let s5 := g.startRewind s4 dataAddr
        let r := driveToCompletion g args fuel s5
        (r.1, pre ++ [.stopUnwindEv, .memWrite dataAddr asyncifyDataBuffer,
                      .startRewindEv dataAddr] ++ r.2)
      | 2 => (some (g.stopRewind q.1, .ok results), pre ++ [.stopRewindEv])
      | _ + 3 => (none, pre)

/-- A guest whose execution-state query only ever reports the three
documented states NORMAL, UNWINDING, REWINDING. -/
def TriState (g : GuestOps σ) : Prop := ∀ s : σ, (g.getState s).2 < 3

/-- A concrete scripted guest used as a witness: state 0 invokes to
UNWINDING, the replayed invocation reaches REWINDING, result values [7]. -/
def guestEx : GuestOps (Fin 4) where
  call s _ := (s, .ok [7])
  getState s := if s = 0 then (1, 1) else (2, 2)
  stopUnwind s := s
  startRewind s _ := s
  stopRewind _ := 3
  memWrite s _ _ := s

/-- Host filesystem model: an association list from path to file bytes. -/
def FS : Type := List (List Char × List Nat)

/-- Look up the bytes of a file, modelling os.ReadFile. -/
def fsLookup : FS → List Char → Option (List Nat)
  | [], _ => none
  | kv :: rest, p => if kv.1 = p then some kv.2 else fsLookup rest p

/-- Create or overwrite a file, modelling os.WriteFile (the new entry
shadows any previous one). -/
def fsWrite (fs : FS) (p : List Char) (b : List Nat) : FS :=
  (p, b) :: fs

/-- Delete a file, modelling os.Remove. -/
def fsErase : FS → List Char → FS
  | [], _ => []
  | kv :: rest, p => if kv.1 = p then fsErase rest p else kv :: fsErase rest p

/-- Host-visible session state: the scratch filesystem, the two capture
buffers attached to the guest, and the guest module state. -/
structure Sys (γ : Type) where
  fs : FS
  out : List Char
  err : List Char
  guest : γ

/-- Oracle for the whole guest module as used by eval and the public
operations: the allocator pair, the linear-memory write, one invocation
step of the evaluation entry point (which may read and write the mounted
scratch filesystem and append to the capture streams), the four
suspend-machinery entry points, and the optional flush entry point. -/
structure EvalModel (γ : Type) where
  malloc : γ → Nat → γ × Except Unit Nat
  memFree : γ → Nat → γ
  memWrite : γ → Nat → List Nat → Option γ
  evalStep : γ → FS → List Nat → γ × FS × List Char × List Char × Except Unit (List Nat)
  getState : γ → γ × Nat
  stopUnwind : γ → γ
  startRewind : γ → Nat → γ
  stopRewind : γ → γ
  flushPresent : Bool
  flush : γ → γ × List Char

/-- View of the evaluation entry point as a `GuestOps` over the session
state, so that eval drives it with the same `callWithAsyncify` as the
source; guest output produced by an invocation is appended to the capture
buffers and scratch-filesystem effects are applied, and a failed
scratch-region write leaves memory unchanged (its result is ignored by the
driver, src line 200). -/
def evalOps (m : EvalModel γ) : GuestOps (Sys γ) where
  call s args :=
    let r := m.evalStep s.guest s.fs args
    (⟨r.2.1, s.out ++ r.2.2.1, s.err ++ r.2.2.2.1, r.1⟩, r.2.2.2.2)
  getState s :=
    let q := m.getState s.guest
    (⟨s.fs, s.out, s.err, q.1⟩, q.2)
  stopUnwind s := ⟨s.fs, s.out, s.err, m.stopUnwind s.guest⟩
  startRewind s a := ⟨s.fs, s.out, s.err, m.startRewind s.guest a⟩
  stopRewind s := ⟨s.fs, s.out, s.err, m.stopRewind s.guest⟩
  memWrite s a b := ⟨s.fs, s.out, s.err, (m.memWrite s.guest a b).getD s.guest⟩

/-- Failure modes of eval (src lines 219-235). -/
inductive EvalErr where
  | mallocFailed
  | writeFailed
  | evalFailed
  deriving DecidableEq, Repr

/-- The request payload: the program bytes plus the terminating sentinel
byte (src line 218). -/
def codeBytesOf (code : List Char) : List Nat :=
  code.map Char.toNat ++ [0]

/-- Embedding of eval (src lines 210-243): lock, clear both capture
buffers, allocate the payload on the guest heap, write it across the
memory boundary, drive the evaluation entry point with the payload address
and three reserved zeros, flush if the flush export is present, and return
the captured standard output; the allocation is freed and the lock
released on every exit path (the Go defers run in LIFO order: free, then
unlock). `none` models the driver loop not returning within `fuel`. -/
def evalGo (m : EvalModel γ) (fuel : Nat) (code : List Char) (s : Sys γ) :
    Option (Sys γ × Except EvalErr (List Char)) × List Ev :=
  let s0 : Sys γ := ⟨s.fs, [], [], s.guest⟩
  let codeBytes := codeBytesOf code
  let ma := m.malloc s0.guest codeBytes.length
  match ma.2 with
  | .error _ =>
    (some (⟨s0.fs, s0.out, s0.err, ma.1⟩, .error .mallocFailed),
     [.lock, .bufReset, .mallocCall codeBytes.length, .unlock])
  | .ok codePtr =>
    match m.memWrite ma.1 codePtr codeBytes with
    | none =>
      (some (⟨s0.fs, s0.out, s0.err, m.memFree ma.1 codePtr⟩, .error .writeFailed),
       [.lock, .bufReset, .mallocCall codeBytes.length, .memWrite codePtr codeBytes,
        .freeCall codePtr, .unlock])
    | some g2 =>
      let s2 : Sys γ := ⟨s0.fs, s0.out, s0.err, g2⟩
      let d := callWithAsyncify (evalOps m) [codePtr, 0, 0, 0] fuel s2
      let pre : List Ev := [.lock, .bufReset, .mallocCall codeBytes.length,
                            .memWrite codePtr codeBytes]
      match d.1 with
      | none => (none, pre ++ d.2)
      | some (s3, .error _) =>
        (some (⟨s3.fs, s3.out, s3.err, m.memFree s3.guest codePtr⟩, .error .evalFailed),
         pre ++ d.2 ++ [.freeCall codePtr, .unlock])
      | some (s3, .ok _) =>
        let s4 : Sys γ :=
          if m.flushPresent then
            ⟨s3.fs, s3.out ++ (m.flush s3.guest).2, s3.err, (m.flush s3.guest).1⟩
          else s3
        let ftr : List Ev := if m.flushPresent then [.flushCall] else []
        (some (⟨s4.fs, s4.out, s4.err, m.memFree s4.guest codePtr⟩, .ok s4.out),
         pre ++ d.2 ++ ftr ++ [.freeCall codePtr, .unlock])

/-- Count the occurrences of an event in a trace. -/
def countEv (x : Ev) : List Ev → Nat
  | [] => 0
  | e :: rest => (if e = x then 1 else 0) + countEv x rest

/-- A concrete scripted session model used as a witness: allocation at
address 100, the evaluation entry point prints "hi" and completes in the
NORMAL state, and the flush export appends "!". -/
def evalModelEx : EvalModel Unit where
  malloc g _ := (g, .ok 100)
  memFree g _ := g
  memWrite g _ _ := some g
  evalStep g fs _ := (g, fs, "hi".toList, [], .ok [0])
  getState g := (g, 0)
  stopUnwind g := g
  startRewind g _ := g
  stopRewind g := g
  flushPresent := true
  flush g := (g, "!".toList)

/-- The backslash character. -/
def bslash : Char := Char.ofNat 92

/-- The single-quote character. -/
def squote : Char := Char.ofNat 39

/-- The double-quote character. -/
def dquote : Char := Char.ofNat 34

/-- Lowercase hexadecimal digit, as used by the Go JSON encoder. -/
def hexDigit (n : Nat) : Char :=
  if n < 10 then Char.ofNat (48 + n) else Char.ofNat (87 + n)

/-- JSON-shaped tag values as passed to WriteMetadata (strings, numbers,
booleans; the subset of Go any values the call sites use). -/
inductive JVal where
  | str (s : List Char)
  | num (n : Int)
  | boolv (b : Bool)
  deriving DecidableEq, Repr

/-- Per-character escaping of the Go JSON encoder with HTML escaping (the
json.Marshal default): quote, backslash, newline, carriage return and tab
get two-character escapes, other control characters and the HTML-sensitive
characters get u00XX escapes, the Unicode line separators get u202X
escapes, everything else is emitted raw. -/
def escChar (c : Char) : List Char :=
  if c = dquote then [bslash, dquote]
  else if c = bslash then [bslash, bslash]
  else if c = Char.ofNat 10 then [bslash, Char.ofNat 110]
  else if c = Char.ofNat 13 then [bslash, Char.ofNat 114]
  else if c = Char.ofNat 9 then [bslash, Char.ofNat 116]
  else if c.toNat < 32 ∨ c.toNat = 60 ∨ c.toNat = 62 ∨ c.toNat = 38 then
    [bslash, Char.ofNat 117, Char.ofNat 48, Char.ofNat 48,
     hexDigit (c.toNat / 16), hexDigit (c.toNat % 16)]
  else if c.toNat = 8232 ∨ c.toNat = 8233 then
    [bslash, Char.ofNat 117, Char.ofNat 50, Char.ofNat 48, Char.ofNat 50,
     hexDigit (c.toNat % 16)]
  else [c]

/-- Escape a whole string for a JSON string literal. -/
def escString (s : List Char) : List Char := (s.map escChar).flatten

/-- Decimal digits of a natural number, most significant first; the first
argument is fuel bounding the recursion depth. -/
def natDigitsAux : Nat → Nat → List Char
  | 0, _ => []
  | fuel + 1, n =>
    if n = 0 then [] else natDigitsAux fuel (n / 10) ++ [Char.ofNat (48 + n % 10)]

/-- Decimal representation of a natural number. -/
def natRepr (n : Nat) : List Char :=
  if n = 0 then [Char.ofNat 48] else natDigitsAux n n

/-- Decimal representation of an integer. -/
def intRepr : Int → List Char
  | .ofNat n => natRepr n
  | .negSucc n => Char.ofNat 45 :: natRepr (n + 1)

/-- JSON serialization of one tag value. -/
def jvalMarshal : JVal → List Char
  | .str s => dquote :: escString s ++ [dquote]
  | .num n => intRepr n
  | .boolv b => if b then "true".toList else "false".toList

/-- Insert an entry into a key-sorted tag list (byte-wise key order, as the
Go JSON encoder sorts map keys). -/
def lexLt : List Char → List Char → Bool
  | [], [] => false
  | [], _ :: _ => true
  | _ :: _, [] => false
  | a :: as, b :: bs2 =>
    if a.toNat < b.toNat then true
    else if b.toNat < a.toNat then false
    else lexLt as bs2

/-- Insertion step of the key sort. -/
def insortTag (kv : List Char × JVal) :
    List (List Char × JVal) → List (List Char × JVal)
  | [] => [kv]
  | hd :: tl => if lexLt kv.1 hd.1 then kv :: hd :: tl else hd :: insortTag kv tl

/-- Sort a tag list by key. -/
def sortTags : List (List Char × JVal) → List (List Char × JVal)
  | [] => []
  | kv :: rest => insortTag kv (sortTags rest)

/-- Join serialized members with commas. -/
def joinComma : List (List Char) → List Char
  | [] => []
  | [x] => x
  | x :: y :: rest => x ++ Char.ofNat 44 :: joinComma (y :: rest)

/-- JSON serialization of a tag map, modelling Go json.Marshal on a map:
sorted keys, each member a quoted escaped key, a colon and the value. -/
def jsonMarshal (tags : List (List Char × JVal)) : List Char :=
  Char.ofNat 123 ::
    joinComma ((sortTags tags).map fun kv =>
      dquote :: escString kv.1 ++ [dquote] ++ [Char.ofNat 58] ++ jvalMarshal kv.2) ++
    [Char.ofNat 125]

/-- One-substitution fmt.Sprintf: %% emits a percent and %s splices the
argument; all other characters pass through. -/
def sprintf1 : List Char → List Char → List Char
  | [], _ => []
  | c :: rest, arg =>
    if c = Char.ofNat 37 then
      match rest with
      | [] => [c]
      | d :: rest2 =>
        if d = Char.ofNat 37 then Char.ofNat 37 :: sprintf1 rest2 arg
        else if d = Char.ofNat 115 then arg ++ sprintf1 rest2 arg
        else c :: d :: sprintf1 rest2 arg
    else c :: sprintf1 rest arg

/-- The Go format string of the metadata-writing program (src lines
318-328), with the tags JSON spliced at the %s inside a single-quoted Perl
string literal. -/
def goWriteFormat : List Char := ("\nuse Image::ExifTool;\nuse JSON::PP;\nmy $et = Image::ExifTool->new;\nmy $tags = JSON::PP->new->utf8->decode(\x27%s\x27);\nforeach my $tag (keys %%$tags) \x7b\n    $et->SetNewValue($tag, $tags->\x7b$tag\x7d);\n\x7d\nmy $result = $et->WriteInfo(\x27/tmp/input\x27, \x27/tmp/output\x27);\nprint $result;\n").toList

/-- The program text passed to eval by WriteMetadata. -/
def writeMetadataCode (tagsJSON : List Char) : List Char :=
  sprintf1 goWriteFormat tagsJSON

/-- The part of the generated program before the spliced JSON, ending with
the opening single quote of the Perl literal. -/
def writePre : List Char := ("\nuse Image::ExifTool;\nuse JSON::PP;\nmy $et = Image::ExifTool->new;\nmy $tags = JSON::PP->new->utf8->decode(\x27").toList

/-- The part of the generated program after the spliced JSON, beginning
with the closing single quote of the Perl literal. -/
def writeSuf : List Char := ("\x27);\nforeach my $tag (keys %$tags) \x7b\n    $et->SetNewValue($tag, $tags->\x7b$tag\x7d);\n\x7d\nmy $result = $et->WriteInfo(\x27/tmp/input\x27, \x27/tmp/output\x27);\nprint $result;\n").toList

/-- The suffix without its leading closing quote. -/
def writeSufTail : List Char := writeSuf.drop 1

/-- Perl single-quoted string scanning, starting just after the opening
quote: a backslash escapes a following backslash or quote (and is kept
literally before any other character), an unescaped quote terminates the
literal. Returns the denoted string content and the remaining input, or
none when the input ends inside the literal. -/
def scanSQ : List Char → Option (List Char × List Char)
  | [] => none
  | c :: rest =>
    if c = bslash then
      match rest with
      | [] => none
      | d :: rest2 =>
        match scanSQ rest2 with
        | none => none
        | some pr =>
          if d = bslash ∨ d = squote then some (d :: pr.1, pr.2)
          else some (bslash :: d :: pr.1, pr.2)
    else if c = squote then some ([], rest)
    else
      match scanSQ rest with
      | none => none
      | some pr => some (c :: pr.1, pr.2)

/-- Strings that the Perl single-quote scanner walks through safely: a
concatenation of plain non-backslash characters and two-character escape
sequences whose second character is not a quote. Every string emitted by
the Go JSON encoder has this shape. -/
inductive SafeEsc : List Char → Prop where
  | nil : SafeEsc []
  | plain {c : Char} {rest : List Char} :
      c ≠ bslash → SafeEsc rest → SafeEsc (c :: rest)
  | esc {d : Char} {rest : List Char} :
      d ≠ squote → SafeEsc rest → SafeEsc (bslash :: d :: rest)

/-- Witness tag map whose serialization has no single quote or backslash. -/
def tagsEx1 : List (List Char × JVal) := [("Artist".toList, JVal.str "A".toList)]

/-- Witness tag map whose value serialization contains a single quote. -/
def tagsEx2 : List (List Char × JVal) :=
  [("Artist".toList, JVal.str "it\x27s".toList)]

/-- Staging-slot name of the per-call input file (src tmpDir + "/input"). -/
def inputSlot : List Char := "/input".toList

/-- Staging-slot name of the per-call output file (src tmpDir + "/output"). -/
def outputSlot : List Char := "/output".toList

/-- The Perl program evaluated by ReadMetadata (src lines 260-275). -/
def readCode : List Char := ("\nuse Image::ExifTool;\nuse JSON::PP;\nmy $et = Image::ExifTool->new;\nmy $info = $et->ImageInfo(\x27/tmp/input\x27);\nmy %result;\nforeach my $tag (keys %$info) \x7b\n    my $val = $$info\x7b$tag\x7d;\n    if (ref($val) eq \x27SCALAR\x27) \x7b\n        $result\x7b$tag\x7d = \x27[binary data]\x27;\n    \x7d else \x7b\n        $result\x7b$tag\x7d = $val;\n    \x7d\n\x7d\nprint JSON::PP->new->utf8->encode(\\%result);\n").toList

/-- The Perl program evaluated by Version (src line 291). -/
def versionCode : List Char :=
  "use Image::ExifTool; print Image::ExifTool->VERSION;".toList

/-- Failure modes of ReadMetadata (src lines 248-284). -/
inductive RmErr where
  | readFileFailed
  | evalFailed
  | decodeFailed
  deriving DecidableEq, Repr

/-- Failure modes of WriteMetadata (src lines 299-357). -/
inductive WmErr where
  | readSourceFailed
  | evalFailed
  | writeRejected
  | readOutputFailed
  deriving DecidableEq, Repr

/-- Embedding of ReadMetadata (src lines 246-287): read the source file,
stage it into the scratch input slot, evaluate the reading program, decode
the captured text as JSON (the decoder is the off-the-shelf JSON
unmarshaller, passed as a parameter), and remove the staged input on every
completed path (the Go defer at src line 257). -/
def ReadMetadata (m : EvalModel γ) (dec : List Char → Option (List (List Char × JVal)))
    (fuel : Nat) (tmpDir : List Char) (filePath : List Char) (s : Sys γ) :
    Option (Sys γ × Except RmErr (List (List Char × JVal))) × List Ev :=
  match fsLookup s.fs filePath with
  | none => (some (s, .error .readFileFailed), [.hostRead filePath])
  | some data =>
    let tmpFile := tmpDir ++ inputSlot
    let s1 : Sys γ := ⟨fsWrite s.fs tmpFile data, s.out, s.err, s.guest⟩
    let er := evalGo m fuel readCode s1
    let pre : List Ev := [.hostRead filePath, .hostWrite tmpFile]
    match er.1 with
    | none => (none, pre ++ er.2)
    | some (s2, .error _) =>
      (some (⟨fsErase s2.fs tmpFile, s2.out, s2.err, s2.guest⟩, .error .evalFailed),
       pre ++ er.2 ++ [.hostRemove tmpFile])
    | some (s2, .ok out) =>
      match dec out with
      | none =>
        (some (⟨fsErase s2.fs tmpFile, s2.out, s2.err, s2.guest⟩, .error .decodeFailed),
         pre ++ er.2 ++ [.hostRemove tmpFile])
      | some obj =>
        (some (⟨fsErase s2.fs tmpFile, s2.out, s2.err, s2.guest⟩, .ok obj),
         pre ++ er.2 ++ [.hostRemove tmpFile])

/-- Embedding of Version (src lines 290-293): evaluate the one-line
version-printing program. -/
def Version (m : EvalModel γ) (fuel : Nat) (s : Sys γ) :
    Option (Sys γ × Except EvalErr (List Char)) × List Ev :=
  evalGo m fuel versionCode s

/-- Embedding of WriteMetadata (src lines 297-360): read the source file,
stage it into the scratch input slot, serialize the tags to JSON and splice
them into the writing program, evaluate it, interpret the captured scalar
("0" rejects the write), read the staged output slot and copy it to the
destination (the source path when the destination is empty). The staged
input is removed on every completed path, and the staged output only on
the success path after it was read (the Go defer at src line 346 is only
registered once reading the output slot succeeded). -/
def WriteMetadata (m : EvalModel γ) (fuel : Nat) (tmpDir : List Char)
    (srcPath dstPath : List Char) (tags : List (List Char × JVal)) (s : Sys γ) :
    Option (Sys γ × Except WmErr Unit) × List Ev :=
  match fsLookup s.fs srcPath with
  | none => (some (s, .error .readSourceFailed), [.hostRead srcPath])
  | some data =>
    let tmpInput := tmpDir ++ inputSlot
    let s1 : Sys γ := ⟨fsWrite s.fs tmpInput data, s.out, s.err, s.guest⟩
    let code := writeMetadataCode (jsonMarshal tags)
    let er := evalGo m fuel code s1
    let pre : List Ev := [.hostRead srcPath, .hostWrite tmpInput]
    match er.1 with
    | none => (none, pre ++ er.2)
    | some (s2, .error _) =>
      (some (⟨fsErase s2.fs tmpInput, s2.out, s2.err, s2.guest⟩, .error .evalFailed),
       pre ++ er.2 ++ [.hostRemove tmpInput])
    | some (s2, .ok out) =>
      if out = "0".toList then
        (some (⟨fsErase s2.fs tmpInput, s2.out, s2.err, s2.guest⟩, .error .writeRejected),
         pre ++ er.2 ++ [.hostRemove tmpInput])
      else
        let tmpOutput := tmpDir ++ outputSlot
        match fsLookup s2.fs tmpOutput with
        | none =>
          (some (⟨fsErase s2.fs tmpInput, s2.out, s2.err, s2.guest⟩, .error .readOutputFailed),
           pre ++ er.2 ++ [.hostRead tmpOutput, .hostRemove tmpInput])
        | some outData =>
          let dest := if dstPath = [] then srcPath else dstPath
          let fs4 := fsErase (fsErase (fsWrite s2.fs dest outData) tmpOutput) tmpInput
          (some (⟨fs4, s2.out, s2.err, s2.guest⟩, .ok ()),
           pre ++ er.2 ++ [.hostRead tmpOutput, .hostWrite dest,
             .hostRemove tmpOutput, .hostRemove tmpInput])

/-- Embedding of SetTag (src lines 364-366): delegate to WriteMetadata with
the single-entry tag map. -/
def SetTag (m : EvalModel γ) (fuel : Nat) (tmpDir : List Char)
    (srcPath dstPath : List Char) (tag value : List Char) (s : Sys γ) :
    Option (Sys γ × Except WmErr Unit) × List Ev :=
  WriteMetadata m fuel tmpDir srcPath dstPath [(tag, JVal.str value)] s

/-- Boolean prefix test on paths. -/
def hasPrefix : List Char → List Char → Bool
  | [], _ => true
  | _ :: _, [] => false
  | a :: as, b :: bs2 => a = b && hasPrefix as bs2

/-- Remove a whole directory tree, modelling os.RemoveAll. -/
def removeTree : FS → List Char → FS
  | [], _ => []
  | kv :: rest, dir =>
    if hasPrefix dir kv.1 then removeTree rest dir else kv :: removeTree rest dir

/-- Teardown-relevant state of an ExifTool instance: whether the module and
runtime references are non-nil (construction may have failed partway),
whether they have been closed, the temp-directory path (empty when its
creation failed), and the host filesystem. -/
structure TearState where
  modPresent : Bool
  runtimePresent : Bool
  modClosed : Bool
  runtimeClosed : Bool
  tmpDir : List Char
  fs : FS

/-- Embedding of Close (src lines 166-177): close the module if non-nil,
close the runtime if non-nil, recursively remove the temp directory if the
path field is non-empty, and return nil unconditionally. -/
def Close (s : TearState) : TearState × Option Unit :=
  let s1 := if s.modPresent then { s with modClosed := true } else s
  let s2 := if s1.runtimePresent then { s1 with runtimeClosed := true } else s1
  let s3 := if s2.tmpDir ≠ [] then { s2 with fs := removeTree s2.fs s2.tmpDir } else s2
  (s3, none)

/-- Numeric code of a WriteMetadata outcome, for concrete statements. -/
def wmCode : Except WmErr Unit → Nat
  | .ok _ => 0
  | .error .readSourceFailed => 1
  | .error .evalFailed => 2
  | .error .writeRejected => 3
  | .error .readOutputFailed => 4

/-- Temp-directory path of the concrete witness session. -/
def tmpDirEx : List Char := "/tmpx".toList

/-- Source path of the concrete witness session. -/
def srcEx : List Char := "/src.jpg".toList

/-- Destination path of the concrete witness session. -/
def dstEx : List Char := "/dst.jpg".toList

/-- Initial state of the concrete witness session: the source file exists. -/
def sEx : Sys Unit := ⟨[(srcEx, [1])], [], [], ()⟩

/-- Scripted guest that stages an output file but reports the rejection
scalar "0". -/
def mReject : EvalModel Unit where
  malloc g _ := (g, .ok 100)
  memFree g _ := g
  memWrite g _ _ := some g
  evalStep g fs _ := (g, fsWrite fs (tmpDirEx ++ outputSlot) [2], "0".toList, [], .ok [0])
  getState g := (g, 0)
  stopUnwind g := g
  startRewind g _ := g
  stopRewind g := g
  flushPresent := false
  flush g := (g, [])

/-- Scripted guest that stages an output file and reports success "1". -/
def mAccept : EvalModel Unit where
  malloc g _ := (g, .ok 100)
  memFree g _ := g
  memWrite g _ _ := some g
  evalStep g fs _ := (g, fsWrite fs (tmpDirEx ++ outputSlot) [9], "1".toList, [], .ok [0])
  getState g := (g, 0)
  stopUnwind g := g
  startRewind g _ := g
  stopRewind g := g
  flushPresent := false
  flush g := (g, [])

/-- Post-eval session state on the accepting witness run. -/
def s2Acc : Sys Unit :=
  ⟨[(tmpDirEx ++ outputSlot, [9]), (tmpDirEx ++ inputSlot, [1]), (srcEx, [1])],
   "1".toList, [], ()⟩

/-- Final host filesystem of the successful concrete WriteMetadata run. -/
def c2FinalFs : FS :=
  fsErase (fsErase (fsWrite s2Acc.fs dstEx [9]) (tmpDirEx ++ outputSlot))
    (tmpDirEx ++ inputSlot)

/-- Post-eval session state on the rejecting witness run. -/
def s2Rej : Sys Unit :=
  ⟨[(tmpDirEx ++ outputSlot, [2]), (tmpDirEx ++ inputSlot, [1]), (srcEx, [1])],
   "0".toList, [], ()⟩

/-- Events that touch the capture buffers or invoke guest functionality. -/
def guestTouch : Ev → Bool
  | .bufReset => true
  | .mallocCall _ => true
  | .freeCall _ => true
  | .memWrite _ _ => true
  | .invoke _ => true
  | .stateEv _ => true
  | .stopUnwindEv => true
  | .startRewindEv _ => true
  | .stopRewindEv => true
  | .flushCall => true
  | _ => false

/-- Host filesystem writes under the session temp directory: mutations of
state shared by all callers of one session. -/
def sessionFsWrite (tmpDir : List Char) : Ev → Bool
  | .hostWrite p => hasPrefix tmpDir p
  | .hostRemove p => hasPrefix tmpDir p
  | _ => false

/-- Events that can appear in an eval trace (everything except host
filesystem operations). -/
def evalEv : Ev → Bool
  | .hostRead _ => false
  | .hostWrite _ => false
  | .hostRemove _ => false
  | _ => true

/-- Events the asyncify driver itself can emit. -/
def driverEv : Ev → Bool
  | .invoke _ => true
  | .stateEv _ => true
  | .stopUnwindEv => true
  | .startRewindEv _ => true
  | .stopRewindEv => true
  | .memWrite _ _ => true
  | _ => false

/-- The lock discipline of one public operation's trace: nothing that
touches the capture buffers or the guest happens before the lock is
acquired, lock acquisitions and releases balance on every completed path,
and the only session-shared host filesystem writes are the listed staging
events. -/
def lockDiscipline (allowed : List Ev) (tmpDir : List Char) (tr : List Ev) : Prop :=
  (∀ ev ∈ tr.takeWhile (fun e => decide (e ≠ Ev.lock)), guestTouch ev = false) ∧
    countEv Ev.lock tr = countEv Ev.unlock tr ∧
    ∀ ev ∈ tr, sessionFsWrite tmpDir ev = true → ev ∈ allowed

/-- The session-shared host writes WriteMetadata may perform: staging and
cleanup of the two slots plus the destination write. -/
def wmAllowed (tmpDir srcPath dstPath : List Char) : List Ev :=
  [Ev.hostWrite (tmpDir ++ inputSlot), Ev.hostRemove (tmpDir ++ inputSlot),
   Ev.hostRemove (tmpDir ++ outputSlot),
   Ev.hostWrite (if dstPath = [] then srcPath else dstPath)]

/-- The session-shared host writes ReadMetadata may perform: staging and
cleanup of the input slot. -/
def rmAllowed (tmpDir : List Char) : List Ev :=
  [Ev.hostWrite (tmpDir ++ inputSlot), Ev.hostRemove (tmpDir ++ inputSlot)]

/-- Decoder stub used by the concrete witness runs. -/
def decNone : List Char → Option (List (List Char × JVal)) := fun _ => none

theorem callWithAsyncify_eq_drive (g : GuestOps σ) (args : List Nat) (h : TriState g) :
    ∀ fuel s, callWithAsyncify g args fuel s = driveToCompletion g args fuel s := by
  intro fuel
  induction fuel with
  | zero => intro s; rfl
  | succ n ih =>
    intro s
    show callWithAsyncify g args (n + 1) s = driveToCompletion g args (n + 1) s
    rw [callWithAsyncify, driveToCompletion]
    rcases hr : (g.call s args).2 with e | results
    · simp [hr]
    · simp only [hr]
      have hst : (g.getState (g.call s args).1).2 < 3 := h _
      rcases hq : (g.getState (g.call s args).1).2 with _ | _ | _ | m
      · simp
      · simp [ih]
      · simp
      · omega

/-- Claim C1: the yield/resume driver implements exactly the specified loop:
a trap is returned as a failure; NORMAL returns the invocation results;
UNWINDING stops the unwind, resets the scratch region to its initial bounds,
starts a rewind seeded at the region address and re-invokes the same function
with the same arguments; REWINDING stops the rewind and returns the latest
result values. For every tri-state guest the embedded driver coincides with
the specified loop on every function, argument list, iteration bound and
start state, results and action traces included. -/
theorem spec_C1_callWithAsyncify_refines_drive {σ : Type} (g : GuestOps σ)
    (h : TriState g) (args : List Nat) (fuel : Nat) (s : σ) :
    callWithAsyncify g args fuel s = driveToCompletion g args fuel s :=
  callWithAsyncify_eq_drive g args h fuel s

/-- Witness for C1: the scripted guest is tri-state and the driver agrees
with the specified loop on a run that unwinds once and then rewinds. -/
theorem spec_C1_witness :
    TriState guestEx ∧
      callWithAsyncify guestEx [5] 3 0 = driveToCompletion guestEx [5] 3 0 :=
  have h : TriState guestEx := fun s => by fin_cases s <;> decide
  ⟨h, spec_C1_callWithAsyncify_refines_drive guestEx h [5] 3 0⟩

theorem countEv_append (x : Ev) (a b : List Ev) :
    countEv x (a ++ b) = countEv x a + countEv x b := by
  induction a with
  | nil => simp [countEv]
  | cons e rest ih => simp [countEv, ih]; omega

theorem driver_memWrite_fixed {σ : Type} (g : GuestOps σ) (args : List Nat) :
    ∀ fuel (s : σ) (a : Nat) (b : List Nat),
      Ev.memWrite a b ∈ (callWithAsyncify g args fuel s).2 →
        a = dataAddr ∧ b = asyncifyDataBuffer := by
  intro fuel
  induction fuel with
  | zero => intro s a b h; simp [callWithAsyncify] at h
  | succ n ih =>
    intro s a b h
    rw [callWithAsyncify] at h
    rcases hr : (g.call s args).2 with e | results
    · simp [hr] at h
    · simp only [hr] at h
      by_cases h0 : (g.getState (g.call s args).1).2 = 0
      · simp [h0] at h
      · by_cases h1 : (g.getState (g.call s args).1).2 = 1
        · simp [h0, h1] at h
          rcases h with h | h
          · exact h
          · exact ih _ a b h
        · by_cases h2 : (g.getState (g.call s args).1).2 = 2
          · simp [h0, h1, h2] at h
          · simp [h0, h1, h2] at h
            exact ih _ a b h

theorem driver_reset_counts {σ : Type} (g : GuestOps σ) (args : List Nat) :
    ∀ fuel (s : σ),
      countEv (Ev.memWrite dataAddr asyncifyDataBuffer) (callWithAsyncify g args fuel s).2 =
          countEv (Ev.stateEv 1) (callWithAsyncify g args fuel s).2 ∧
        countEv (Ev.startRewindEv dataAddr) (callWithAsyncify g args fuel s).2 =
          countEv (Ev.stateEv 1) (callWithAsyncify g args fuel s).2 := by
  intro fuel
  induction fuel with
  | zero => intro s; simp [callWithAsyncify, countEv]
  | succ n ih =>
    intro s
    rw [callWithAsyncify]
    rcases hr : (g.call s args).2 with e | results
    · simp [hr, countEv]
    · simp only [hr]
      by_cases h0 : (g.getState (g.call s args).1).2 = 0
      · simp [h0, countEv]
      · by_cases h1 : (g.getState (g.call s args).1).2 = 1
        · have := ih (g.startRewind (g.memWrite (g.stopUnwind
            (g.getState (g.call s args).1).1) dataAddr asyncifyDataBuffer) dataAddr)
          simp only [h0, h1, if_false, if_true, if_neg, if_pos]
          simp [countEv_append, countEv, h1, this.1, this.2]
        · by_cases h2 : (g.getState (g.call s args).1).2 = 2
          · simp [h0, h1, h2, countEv, countEv_append]
          · have := ih (g.getState (g.call s args).1).1
            simp only [h0, h1, h2, if_false]
            simp [countEv_append, countEv, h1, this.1, this.2]

/-- Claim C6: the 8-byte scratch data record at guest address 16 is written
at instantiation with the little-endian bounds dataStart = 24 and
dataEnd = 1048576, the driver rewrites exactly the same initial bounds at
the same address on every UNWINDING observation (one reset and one rewind
start per UNWINDING state observed), and dataStart < dataEnd. -/
theorem spec_C6_scratch_region_resets :
    setupAsyncifyBuffer = asyncifyDataBuffer ∧
      dataAddr = 16 ∧
      readUint32LE setupAsyncifyBuffer = 24 ∧
      readUint32LE (setupAsyncifyBuffer.drop 4) = 1048576 ∧
      dataStart < dataEnd ∧
      (∀ (σ : Type) (g : GuestOps σ) (args : List Nat) (fuel : Nat) (s : σ)
          (a : Nat) (b : List Nat),
        Ev.memWrite a b ∈ (callWithAsyncify g args fuel s).2 →
          a = dataAddr ∧ b = asyncifyDataBuffer) ∧
      (∀ (σ : Type) (g : GuestOps σ) (args : List Nat) (fuel : Nat) (s : σ),
        countEv (Ev.memWrite dataAddr asyncifyDataBuffer)
              (callWithAsyncify g args fuel s).2 =
            countEv (Ev.stateEv 1) (callWithAsyncify g args fuel s).2 ∧
          countEv (Ev.startRewindEv dataAddr) (callWithAsyncify g args fuel s).2 =
            countEv (Ev.stateEv 1) (callWithAsyncify g args fuel s).2) :=
  ⟨by decide, by decide, by decide, by decide, by decide,
   fun _ g args fuel s a b h => driver_memWrite_fixed g args fuel s a b h,
   fun _ g args fuel s => driver_reset_counts g args fuel s⟩

/-- Witness for C6: on the scripted guest, which unwinds once, the driver
trace contains a scratch-region write, and the theorem identifies it as the
fixed address and initial bounds. -/
theorem spec_C6_witness :
    Ev.memWrite 16 asyncifyDataBuffer ∈ (callWithAsyncify guestEx [5] 3 0).2 ∧
      (16 = dataAddr ∧ asyncifyDataBuffer = asyncifyDataBuffer) :=
  ⟨by decide,
   spec_C6_scratch_region_resets.2.2.2.2.2.1 (Fin 4) guestEx [5] 3 0 16
     asyncifyDataBuffer (by decide)⟩

/-- Claim C3: whenever the guest-heap allocation for the payload succeeds,
eval releases it through the guest free export on every exit path, whether
eval returns success, a memory-boundary write failure, or an invocation
failure. -/
theorem spec_C3_eval_frees_allocation {γ : Type} (m : EvalModel γ) (fuel : Nat)
    (code : List Char) (s : Sys γ) (r : Sys γ × Except EvalErr (List Char)) (p : Nat)
    (hret : (evalGo m fuel code s).1 = some r)
    (hma : (m.malloc s.guest (codeBytesOf code).length).2 = .ok p) :
    Ev.freeCall p ∈ (evalGo m fuel code s).2 := by
  rw [evalGo] at hret ⊢
  simp only [hma] at hret ⊢
  rcases hw : m.memWrite (m.malloc s.guest (codeBytesOf code).length).1 p
      (codeBytesOf code) with _ | g2
  · simp [hw]
  · simp only [hw] at hret ⊢
    rcases hd : (callWithAsyncify (evalOps m) [p, 0, 0, 0] fuel
        ⟨s.fs, [], [], g2⟩).1 with _ | s3r
    · simp [hd] at hret
    · rcases s3r with ⟨s3, res⟩
      rcases res with e | v
      · simp [hd]
      · simp [hd]

/-- Witness for C3: on the scripted session the allocation at address 100
succeeds and the trace of eval contains the matching free. -/
theorem spec_C3_witness :
    (evalModelEx.malloc () (codeBytesOf []).length).2 = .ok 100 ∧
      Ev.freeCall 100 ∈ (evalGo evalModelEx 1 [] ⟨[], [], [], ()⟩).2 :=
  ⟨rfl,
   spec_C3_eval_frees_allocation evalModelEx 1 [] ⟨[], [], [], ()⟩
     (⟨[], "hi!".toList, [], ()⟩, .ok "hi!".toList) 100 (by rfl) (by rfl)⟩

/-- Claim C4: eval clears both capture buffers before the guest is invoked
(its behaviour does not depend on previously captured output, and the
trace opens with the lock acquisition followed by the buffer reset), and on
success it returns exactly the standard-output text captured during this
call, with the optional flush entry point invoked when present. -/
theorem spec_C4_eval_buffer_hygiene {γ : Type} (m : EvalModel γ) (fuel : Nat)
    (code : List Char) (fs : FS) (o e : List Char) (g : γ) :
    evalGo m fuel code ⟨fs, o, e, g⟩ = evalGo m fuel code ⟨fs, [], [], g⟩ ∧
      (evalGo m fuel code ⟨fs, o, e, g⟩).2.take 2 = [Ev.lock, Ev.bufReset] ∧
      ∀ (s2 : Sys γ) (t : List Char),
        (evalGo m fuel code ⟨fs, o, e, g⟩).1 = some (s2, .ok t) →
          t = s2.out ∧
            (m.flushPresent = true → Ev.flushCall ∈ (evalGo m fuel code ⟨fs, o, e, g⟩).2) := by
  refine ⟨rfl, ?_, ?_⟩
  · rw [evalGo]
    rcases hma : (m.malloc g (codeBytesOf code).length).2 with _ | p
    · simp [hma]
    · simp only [hma]
      rcases hw : m.memWrite (m.malloc g (codeBytesOf code).length).1 p
          (codeBytesOf code) with _ | g2
      · simp [hw]
      · simp only [hw]
        rcases hd : (callWithAsyncify (evalOps m) [p, 0, 0, 0] fuel
            ⟨fs, [], [], g2⟩).1 with _ | s3r
        · simp [hd]
        · rcases s3r with ⟨s3, e2 | v⟩
          · simp [hd]
          · by_cases hf : m.flushPresent = true <;> simp [hd, hf]
  · intro s2 t h
    rw [evalGo] at h ⊢
    rcases hma : (m.malloc g (codeBytesOf code).length).2 with _ | p
    · simp [hma] at h
    · simp only [hma] at h ⊢
      rcases hw : m.memWrite (m.malloc g (codeBytesOf code).length).1 p
          (codeBytesOf code) with _ | g2
      · simp [hw] at h
      · simp only [hw] at h ⊢
        rcases hd : (callWithAsyncify (evalOps m) [p, 0, 0, 0] fuel
            ⟨fs, [], [], g2⟩).1 with _ | s3r
        · simp [hd] at h
        · rcases s3r with ⟨s3, e2 | v⟩
          · simp [hd] at h
          · by_cases hf : m.flushPresent = true
            · simp [hd, hf] at h ⊢
              rcases h with ⟨hs2, ht⟩
              rw [← hs2]
              exact ht.symm
            · simp [hd, hf] at h ⊢
              rcases h with ⟨hs2, ht⟩
              rw [← hs2]
              exact ht.symm

/-- Witness for C4: on the scripted session with stale text in both
buffers, eval is unaffected by the stale text and returns exactly the text
captured during the call, "hi" from the evaluation plus "!" from flush. -/
theorem spec_C4_witness :
    evalGo evalModelEx 1 [] ⟨[], "stale".toList, "old".toList, ()⟩ =
        evalGo evalModelEx 1 [] ⟨[], [], [], ()⟩ ∧
      (evalGo evalModelEx 1 [] ⟨[], "stale".toList, "old".toList, ()⟩).2.take 2 =
        [Ev.lock, Ev.bufReset] ∧
      ("hi!".toList = (⟨[], "hi!".toList, [], ()⟩ : Sys Unit).out ∧
        (evalModelEx.flushPresent = true →
          Ev.flushCall ∈ (evalGo evalModelEx 1 [] ⟨[], "stale".toList, "old".toList, ()⟩).2)) :=
  have h := spec_C4_eval_buffer_hygiene evalModelEx 1 [] [] "stale".toList "old".toList ()
  ⟨h.1, h.2.1, h.2.2 ⟨[], "hi!".toList, [], ()⟩ "hi!".toList (by rfl)⟩

set_option maxRecDepth 8000 in
theorem writeMetadataCode_split (arg : List Char) :
    writeMetadataCode arg = writePre ++ (arg ++ writeSuf) := by
  rfl

theorem SafeEsc.append {a b : List Char} (ha : SafeEsc a) (hb : SafeEsc b) :
    SafeEsc (a ++ b) := by
  induction ha with
  | nil => simpa using hb
  | plain hc _ ih => exact SafeEsc.plain hc ih
  | esc hd _ ih => exact SafeEsc.esc hd ih

theorem SafeEsc.of_no_bslash {l : List Char} (h : bslash ∉ l) : SafeEsc l := by
  induction l with
  | nil => exact SafeEsc.nil
  | cons c rest ih =>
    simp only [List.mem_cons, not_or] at h
    exact SafeEsc.plain (fun hc => h.1 hc.symm) (ih h.2)

theorem SafeEsc.single {c : Char} (h : c ≠ bslash) : SafeEsc [c] :=
  SafeEsc.plain h SafeEsc.nil

theorem hexDigit_ne_bslash {n : Nat} (h : n < 16) : hexDigit n ≠ bslash := by
  interval_cases n <;> decide

theorem hexDigit_ne_squote {n : Nat} (h : n < 16) : hexDigit n ≠ squote := by
  interval_cases n <;> decide

theorem safeEsc_escChar (c : Char) : SafeEsc (escChar c) := by
  rw [escChar]
  by_cases h1 : c = dquote
  · simp only [h1, if_true, if_pos]
    exact SafeEsc.esc (by decide) SafeEsc.nil
  · rw [if_neg h1]
    by_cases h2 : c = bslash
    · rw [if_pos h2]
      exact SafeEsc.esc (by decide) SafeEsc.nil
    · rw [if_neg h2]
      by_cases h3 : c = Char.ofNat 10
      · rw [if_pos h3]
        exact SafeEsc.esc (by decide) SafeEsc.nil
      · rw [if_neg h3]
        by_cases h4 : c = Char.ofNat 13
        · rw [if_pos h4]
          exact SafeEsc.esc (by decide) SafeEsc.nil
        · rw [if_neg h4]
          by_cases h5 : c = Char.ofNat 9
          · rw [if_pos h5]
            exact SafeEsc.esc (by decide) SafeEsc.nil
          · rw [if_neg h5]
            by_cases h6 : c.toNat < 32 ∨ c.toNat = 60 ∨ c.toNat = 62 ∨ c.toNat = 38
            · rw [if_pos h6]
              refine SafeEsc.esc (by decide) ?_
              refine SafeEsc.plain (by decide) (SafeEsc.plain (by decide) ?_)
              refine SafeEsc.plain (hexDigit_ne_bslash ?_)
                (SafeEsc.plain (hexDigit_ne_bslash (Nat.mod_lt _ (by omega))) SafeEsc.nil)
              rcases h6 with h6 | h6 | h6 | h6 <;> omega
            · rw [if_neg h6]
              by_cases h7 : c.toNat = 8232 ∨ c.toNat = 8233
              · rw [if_pos h7]
                refine SafeEsc.esc (by decide) ?_
                refine SafeEsc.plain (by decide) (SafeEsc.plain (by decide)
                  (SafeEsc.plain (by decide) ?_))
                exact SafeEsc.plain (hexDigit_ne_bslash (Nat.mod_lt _ (by omega)))
                  SafeEsc.nil
              · rw [if_neg h7]
                exact SafeEsc.plain h2 SafeEsc.nil

theorem safeEsc_escString (s : List Char) : SafeEsc (escString s) := by
  induction s with
  | nil => exact SafeEsc.nil
  | cons c rest ih =>
    rw [escString, List.map_cons, List.flatten_cons]
    exact (safeEsc_escChar c).append ih

theorem natDigitsAux_ne_bslash (fuel : Nat) :
    ∀ n, ∀ c ∈ natDigitsAux fuel n, c ≠ bslash := by
  induction fuel with
  | zero => intro n c hc; simp [natDigitsAux] at hc
  | succ f ih =>
    intro n c hc
    rw [natDigitsAux] at hc
    by_cases h0 : n = 0
    · simp [h0] at hc
    · rw [if_neg h0] at hc
      rcases List.mem_append.mp hc with h | h
      · exact ih _ c h
      · simp only [List.mem_singleton] at h
        subst h
        have hlt : n % 10 < 10 := Nat.mod_lt _ (by omega)
        generalize n % 10 = m at hlt ⊢
        interval_cases m <;> decide

theorem safeEsc_natRepr (n : Nat) : SafeEsc (natRepr n) := by
  apply SafeEsc.of_no_bslash
  intro hmem
  rw [natRepr] at hmem
  by_cases h0 : n = 0
  · rw [if_pos h0] at hmem
    exact absurd hmem (by decide)
  · rw [if_neg h0] at hmem
    exact natDigitsAux_ne_bslash n n bslash hmem rfl

theorem safeEsc_intRepr (n : Int) : SafeEsc (intRepr n) := by
  rcases n with m | m
  · exact safeEsc_natRepr m
  · exact SafeEsc.plain (by decide) (safeEsc_natRepr (m + 1))

theorem safeEsc_jvalMarshal (v : JVal) : SafeEsc (jvalMarshal v) := by
  rcases v with s | n | b
  · exact SafeEsc.plain (by decide)
      ((safeEsc_escString s).append (SafeEsc.single (by decide)))
  · exact safeEsc_intRepr n
  · rcases b with _ | _ <;>
      · apply SafeEsc.of_no_bslash
        decide

theorem safeEsc_joinComma (ps : List (List Char)) (h : ∀ p ∈ ps, SafeEsc p) :
    SafeEsc (joinComma ps) := by
  induction ps with
  | nil => exact SafeEsc.nil
  | cons x rest ih =>
    rcases rest with _ | ⟨y, rest2⟩
    · exact h x (by simp)
    · rw [joinComma]
      refine (h x (by simp)).append (SafeEsc.plain (by decide) ?_)
      exact ih (fun p hp => h p (List.mem_cons_of_mem _ hp))

theorem safeEsc_jsonMarshal (tags : List (List Char × JVal)) :
    SafeEsc (jsonMarshal tags) := by
  rw [jsonMarshal]
  refine SafeEsc.plain (by decide) ?_
  refine SafeEsc.append ?_ (SafeEsc.plain (by decide) SafeEsc.nil)
  refine safeEsc_joinComma _ ?_
  intro p hp
  rcases List.mem_map.mp hp with ⟨kv, _, hkv⟩
  subst hkv
  refine SafeEsc.plain (by decide) ?_
  exact SafeEsc.append
    (SafeEsc.append ((safeEsc_escString kv.1).append (SafeEsc.single (by decide)))
      (SafeEsc.single (by decide)))
    (safeEsc_jvalMarshal kv.2)

theorem scanSQ_no_special {l : List Char} (hb : bslash ∉ l) (hq : squote ∉ l) :
    ∀ rest, scanSQ (l ++ rest) =
      (scanSQ rest).map fun pr => (l ++ pr.1, pr.2) := by
  induction l with
  | nil =>
    intro rest
    rcases h : scanSQ rest with _ | pr
    · simp [h]
    · simp [h]
  | cons c tl ih =>
    intro rest
    simp only [List.mem_cons, not_or] at hb hq
    rw [List.cons_append, scanSQ.eq_def]
    dsimp only
    rw [if_neg (fun hc => hb.1 hc.symm), if_neg (fun hc => hq.1 hc.symm)]
    rw [ih hb.2 hq.2 rest]
    rcases h : scanSQ rest with _ | pr
    · simp
    · simp

theorem scanSQ_safe_no_squote {s : List Char} (hs : SafeEsc s) :
    ∀ t content after, scanSQ (s ++ t) = some (content, after) →
      squote ∈ s → squote ∉ content := by
  induction hs with
  | nil =>
    intro t content after _ hmem
    simp at hmem
  | @plain c rest hc _ ih =>
    intro t content after h hmem
    rw [List.cons_append, scanSQ.eq_def] at h
    dsimp only at h
    rw [if_neg hc] at h
    by_cases hcq : c = squote
    · rw [if_pos hcq] at h
      simp only [Option.some_inj, Prod.mk.injEq] at h
      rw [← h.1]
      simp
    · rw [if_neg hcq] at h
      rcases hscan : scanSQ (rest ++ t) with _ | pr
      · rw [hscan] at h; simp at h
      · rw [hscan] at h
        simp only [Option.some_inj, Prod.mk.injEq] at h
        rw [← h.1]
        have hmem2 : squote ∈ rest := by
          rcases List.mem_cons.mp hmem with h1 | h1
          · exact absurd h1.symm hcq
          · exact h1
        have := ih t pr.1 pr.2 (by rw [hscan]) hmem2
        simp only [List.mem_cons, not_or]
        exact ⟨fun h1 => hcq h1.symm, this⟩
  | @esc d rest hd _ ih =>
    intro t content after h hmem
    rw [List.cons_append, List.cons_append, scanSQ, if_pos rfl] at h
    rcases hscan : scanSQ (rest ++ t) with _ | pr
    · rw [hscan] at h; simp at h
    · rw [hscan] at h
      have hmem2 : squote ∈ rest := by
        rcases List.mem_cons.mp hmem with h1 | h1
        · exact absurd h1 (by decide)
        · rcases List.mem_cons.mp h1 with h2 | h2
          · exact absurd h2.symm hd
          · exact h2
      have hpr := ih t pr.1 pr.2 (by rw [hscan]) hmem2
      dsimp only at h
      by_cases hdd : d = bslash ∨ d = squote
      · rw [if_pos hdd] at h
        simp only [Option.some_inj, Prod.mk.injEq] at h
        rw [← h.1]
        simp only [List.mem_cons, not_or]
        exact ⟨fun h1 => hd h1.symm, hpr⟩
      · rw [if_neg hdd] at h
        simp only [Option.some_inj, Prod.mk.injEq] at h
        rw [← h.1]
        simp only [List.mem_cons, not_or]
        exact ⟨by decide, fun h1 => hd h1.symm, hpr⟩

/-- Claim C10: WriteMetadata splices the JSON serialization of the tags map
directly into the single-quoted Perl literal of the fixed template with no
escaping; when the serialization contains no single quote and no backslash
the embedded literal denotes exactly the serialization, and whenever the
serialization contains a single quote the literal scanned by the Perl lexer
does not denote the serialization (the quoting is not preserved). -/
theorem spec_C10_raw_splice_quoting (tags : List (List Char × JVal)) :
    writeMetadataCode (jsonMarshal tags) = writePre ++ (jsonMarshal tags ++ writeSuf) ∧
      (squote ∉ jsonMarshal tags → bslash ∉ jsonMarshal tags →
        scanSQ (jsonMarshal tags ++ writeSuf) = some (jsonMarshal tags, writeSufTail)) ∧
      (squote ∈ jsonMarshal tags →
        ∀ content after, scanSQ (jsonMarshal tags ++ writeSuf) = some (content, after) →
          content ≠ jsonMarshal tags) := by
  refine ⟨writeMetadataCode_split _, ?_, ?_⟩
  · intro hq hb
    rw [scanSQ_no_special hb hq writeSuf]
    have hsuf : scanSQ writeSuf = some ([], writeSufTail) := by rfl
    rw [hsuf]
    simp
  · intro hq content after h
    have hnot := scanSQ_safe_no_squote (safeEsc_jsonMarshal tags) writeSuf
      content after h hq
    intro he
    rw [he] at hnot
    exact hnot hq

set_option maxRecDepth 8000 in
/-- Witness for C10: a clean tag map splices verbatim and its literal scans
back exactly, while a value containing a single quote makes the scanned
literal differ from the spliced serialization. -/
theorem spec_C10_witness :
    writeMetadataCode (jsonMarshal tagsEx1) =
        writePre ++ (jsonMarshal tagsEx1 ++ writeSuf) ∧
      scanSQ (jsonMarshal tagsEx1 ++ writeSuf) =
        some (jsonMarshal tagsEx1, writeSufTail) ∧
      "\x7b\x22Artist\x22:\x22it".toList ≠ jsonMarshal tagsEx2 :=
  ⟨(spec_C10_raw_splice_quoting tagsEx1).1,
   (spec_C10_raw_splice_quoting tagsEx1).2.1 (by decide) (by decide),
   (spec_C10_raw_splice_quoting tagsEx2).2.2 (by decide) _ _ (by rfl)⟩

theorem fsLookup_fsErase (fs : FS) (p q : List Char) :
    fsLookup (fsErase fs q) p = if p = q then none else fsLookup fs p := by
  induction fs with
  | nil => simp [fsErase, fsLookup, ite_self]
  | cons kv rest ih =>
    rw [fsErase]
    by_cases hk : kv.1 = q
    · rw [if_pos hk, ih]
      by_cases hpq : p = q
      · simp [hpq]
      · rw [if_neg hpq, if_neg hpq, fsLookup,
          if_neg (by rw [hk]; exact fun h => hpq h.symm)]
    · rw [if_neg hk]
      by_cases hkp : kv.1 = p
      · have hpq : ¬ p = q := fun h => hk (by rw [hkp, h])
        rw [if_neg hpq, fsLookup, if_pos hkp, fsLookup, if_pos hkp]
      · rw [fsLookup, if_neg hkp, ih]
        by_cases hpq : p = q
        · simp [hpq]
        · rw [if_neg hpq, if_neg hpq, fsLookup, if_neg hkp]

/-- Claim C8: SetTag is exactly WriteMetadata applied to the single-entry
tag map, for every source path, destination path, tag, value, session
state, oracle and fuel; it has no behaviour of its own. -/
theorem spec_C8_settag_delegates {γ : Type} (m : EvalModel γ) (fuel : Nat)
    (tmpDir srcPath dstPath tag value : List Char) (s : Sys γ) :
    SetTag m fuel tmpDir srcPath dstPath tag value s =
      WriteMetadata m fuel tmpDir srcPath dstPath [(tag, JVal.str value)] s := rfl

theorem fsLookup_removeTree (fs : FS) (dir p : List Char)
    (h : hasPrefix dir p = true) :
    fsLookup (removeTree fs dir) p = none := by
  induction fs with
  | nil => simp [removeTree, fsLookup]
  | cons kv rest ih =>
    rw [removeTree]
    by_cases hk : hasPrefix dir kv.1 = true
    · rw [if_pos hk]; exact ih
    · rw [if_neg hk, fsLookup, if_neg (fun he : kv.1 = p => hk (by rw [he]; exact h))]
      exact ih

/-- Claim C7: Close is total and idempotent: it never returns an error (in
particular a second call never errors), it is safe on partially
constructed instances (nil module, nil runtime or empty temp-directory
field are all covered since the state is universally quantified), and
after the first call no file under the temp directory remains on the host
filesystem. -/
theorem spec_C7_close_idempotent_total (s : TearState) :
    (Close s).2 = none ∧
      (Close (Close s).1).2 = none ∧
      ∀ p : List Char, s.tmpDir ≠ [] → hasPrefix s.tmpDir p = true →
        fsLookup (Close s).1.fs p = none := by
  refine ⟨rfl, rfl, ?_⟩
  intro p hne hpre
  rcases s with ⟨mp, rp, mc, rc, td, fs⟩
  cases mp <;> cases rp <;>
    · simp only [Close, if_pos, if_neg, if_true, if_false, Bool.false_eq_true,
        not_false_eq_true]
      simp only [if_pos hne]
      exact fsLookup_removeTree fs td p hpre

/-- Witness for C7: closing a partially constructed instance (nil module
and runtime) never errors, twice in a row, and removes the staged file
under its temp directory. -/
theorem spec_C7_witness :
    (Close ⟨false, false, false, false, "/t".toList, [("/t/input".toList, [1])]⟩).2 = none ∧
      (Close (Close ⟨false, false, false, false, "/t".toList,
        [("/t/input".toList, [1])]⟩).1).2 = none ∧
      fsLookup (Close ⟨false, false, false, false, "/t".toList,
        [("/t/input".toList, [1])]⟩).1.fs "/t/input".toList = none :=
  have h := spec_C7_close_idempotent_total
    ⟨false, false, false, false, "/t".toList, [("/t/input".toList, [1])]⟩
  ⟨h.1, h.2.1, h.2.2 "/t/input".toList (by decide) (by decide)⟩

/-- Claim C2 (amended): after a completed WriteMetadata call whose source
file was readable, the staged input slot never survives, and the staged
output slot is removed on the success path; on failure paths the output
slot is not touched by the cleanup (see the counterexample). -/
theorem spec_C2_staged_cleanup {γ : Type} (m : EvalModel γ) (fuel : Nat)
    (tmpDir srcPath dstPath : List Char) (tags : List (List Char × JVal))
    (s : Sys γ) (data : List Nat) (r : Sys γ × Except WmErr Unit)
    (hsrc : fsLookup s.fs srcPath = some data)
    (hr : (WriteMetadata m fuel tmpDir srcPath dstPath tags s).1 = some r) :
    fsLookup r.1.fs (tmpDir ++ inputSlot) = none ∧
      (r.2 = .ok () → fsLookup r.1.fs (tmpDir ++ outputSlot) = none) := by
  rw [WriteMetadata] at hr
  simp only [hsrc] at hr
  rcases he : (evalGo m fuel (writeMetadataCode (jsonMarshal tags))
      ⟨fsWrite s.fs (tmpDir ++ inputSlot) data, s.out, s.err, s.guest⟩).1 with _ | s2r
  · rw [he] at hr; simp at hr
  · rw [he] at hr
    rcases s2r with ⟨s2, e2 | out⟩
    · simp only [Option.some_inj] at hr
      rw [← hr]
      refine ⟨by rw [fsLookup_fsErase]; simp, ?_⟩
      intro hok
      simp at hok
    · dsimp only at hr
      by_cases h0 : out = "0".toList
      · rw [if_pos h0] at hr
        simp only [Option.some_inj] at hr
        rw [← hr]
        refine ⟨by rw [fsLookup_fsErase]; simp, ?_⟩
        intro hok
        simp at hok
      · rw [if_neg h0] at hr
        rcases ho : fsLookup s2.fs (tmpDir ++ outputSlot) with _ | outData
        · rw [ho] at hr
          simp only [Option.some_inj] at hr
          rw [← hr]
          refine ⟨by rw [fsLookup_fsErase]; simp, ?_⟩
          intro hok
          simp at hok
        · rw [ho] at hr
          simp only [Option.some_inj] at hr
          rw [← hr]
          refine ⟨by rw [fsLookup_fsErase]; simp, ?_⟩
          intro _
          rw [fsLookup_fsErase]
          by_cases hio : tmpDir ++ outputSlot = tmpDir ++ inputSlot
          · rw [if_pos hio]
          · rw [if_neg hio, fsLookup_fsErase, if_pos rfl]

theorem fsLookup_fsWrite_self (fs : FS) (p : List Char) (b : List Nat) :
    fsLookup (fsWrite fs p b) p = some b := by
  rw [fsWrite, fsLookup, if_pos rfl]

set_option maxRecDepth 20000 in
/-- Counterexample for C2: a WriteMetadata call that completes with the
guest-reported rejection ("0", outcome code 3) leaves the staged output
slot on the host filesystem, so the staged output is not removed regardless
of outcome as claimed — the cleanup defer for the output slot is only
registered after a successful read of it on the success path. -/
theorem spec_C2_counterexample :
    ((WriteMetadata mReject 1 tmpDirEx srcEx dstEx tagsEx1 sEx).1.map
        fun r => (wmCode r.2, fsLookup r.1.fs (tmpDirEx ++ outputSlot))) =
      some (3, some [2]) := by
  rfl

set_option maxRecDepth 20000 in
/-- Witness for C2 (amended): on a successful concrete run both staged
slots are gone from the final state. -/
theorem spec_C2_witness :
    fsLookup c2FinalFs (tmpDirEx ++ inputSlot) = none ∧
      ((Except.ok () : Except WmErr Unit) = .ok () →
        fsLookup c2FinalFs (tmpDirEx ++ outputSlot) = none) :=
  spec_C2_staged_cleanup mAccept 1 tmpDirEx srcEx dstEx tagsEx1 sEx [1]
    (⟨c2FinalFs, "1".toList, [], ()⟩, .ok ())
    (by rfl) (by rfl)

/-- Claim C5: WriteMetadata interprets the guest scalar as a tri-state
result. On "0" it returns the write-rejected failure and the resulting
state is exactly the post-eval state minus the staged input — the staged
output slot is never read and no destination file is written (every path
other than the staged input is untouched). On "1" or "2" it succeeds, and
the staged output bytes end up at the destination path, which defaults to
the source path when the destination argument is empty. -/
theorem spec_C5_tristate_scalar {γ : Type} (m : EvalModel γ) (fuel : Nat)
    (tmpDir srcPath dstPath : List Char) (tags : List (List Char × JVal))
    (s : Sys γ) (data : List Nat) (s2 : Sys γ) (out : List Char)
    (hsrc : fsLookup s.fs srcPath = some data)
    (heval : (evalGo m fuel (writeMetadataCode (jsonMarshal tags))
        ⟨fsWrite s.fs (tmpDir ++ inputSlot) data, s.out, s.err, s.guest⟩).1 =
      some (s2, .ok out)) :
    (out = "0".toList →
      (WriteMetadata m fuel tmpDir srcPath dstPath tags s).1 =
          some (⟨fsErase s2.fs (tmpDir ++ inputSlot), s2.out, s2.err, s2.guest⟩,
            .error .writeRejected) ∧
        ∀ p : List Char, p ≠ tmpDir ++ inputSlot →
          fsLookup (fsErase s2.fs (tmpDir ++ inputSlot)) p = fsLookup s2.fs p) ∧
      ((out = "1".toList ∨ out = "2".toList) →
        ∀ outData : List Nat,
          fsLookup s2.fs (tmpDir ++ outputSlot) = some outData →
            (WriteMetadata m fuel tmpDir srcPath dstPath tags s).1 =
                some (⟨fsErase (fsErase (fsWrite s2.fs
                    (if dstPath = [] then srcPath else dstPath) outData)
                    (tmpDir ++ outputSlot)) (tmpDir ++ inputSlot),
                  s2.out, s2.err, s2.guest⟩, .ok ()) ∧
              ((if dstPath = [] then srcPath else dstPath) ≠ tmpDir ++ inputSlot →
                (if dstPath = [] then srcPath else dstPath) ≠ tmpDir ++ outputSlot →
                fsLookup (fsErase (fsErase (fsWrite s2.fs
                    (if dstPath = [] then srcPath else dstPath) outData)
                    (tmpDir ++ outputSlot)) (tmpDir ++ inputSlot))
                  (if dstPath = [] then srcPath else dstPath) = some outData)) := by
  constructor
  · intro h0
    constructor
    · rw [WriteMetadata]
      simp only [hsrc]
      rw [heval]
      dsimp only
      rw [if_pos h0]
    · intro p hp
      rw [fsLookup_fsErase, if_neg hp]
  · intro h12 outData ho
    have h0 : ¬ out = "0".toList := by
      rcases h12 with h | h <;> · subst h; decide
    constructor
    · rw [WriteMetadata]
      simp only [hsrc]
      rw [heval]
      dsimp only
      rw [if_neg h0, ho]
    · intro hd1 hd2
      rw [fsLookup_fsErase, if_neg hd1, fsLookup_fsErase, if_neg hd2,
        fsLookup_fsWrite_self]

set_option maxRecDepth 20000 in
/-- Witness for C5: on the rejecting run the result is the write-rejected
failure with only the staged input removed; on the accepting run the
staged output bytes land at the destination path. -/
theorem spec_C5_witness :
    ((WriteMetadata mReject 1 tmpDirEx srcEx dstEx tagsEx1 sEx).1 =
          some (⟨fsErase s2Rej.fs (tmpDirEx ++ inputSlot), s2Rej.out, s2Rej.err,
            s2Rej.guest⟩, .error .writeRejected) ∧
        ∀ p : List Char, p ≠ tmpDirEx ++ inputSlot →
          fsLookup (fsErase s2Rej.fs (tmpDirEx ++ inputSlot)) p = fsLookup s2Rej.fs p) ∧
      ((WriteMetadata mAccept 1 tmpDirEx srcEx dstEx tagsEx1 sEx).1 =
          some (⟨fsErase (fsErase (fsWrite s2Acc.fs
              (if dstEx = [] then srcEx else dstEx) [9])
              (tmpDirEx ++ outputSlot)) (tmpDirEx ++ inputSlot),
            s2Acc.out, s2Acc.err, s2Acc.guest⟩, .ok ()) ∧
        ((if dstEx = [] then srcEx else dstEx) ≠ tmpDirEx ++ inputSlot →
          (if dstEx = [] then srcEx else dstEx) ≠ tmpDirEx ++ outputSlot →
          fsLookup (fsErase (fsErase (fsWrite s2Acc.fs
              (if dstEx = [] then srcEx else dstEx) [9])
              (tmpDirEx ++ outputSlot)) (tmpDirEx ++ inputSlot))
            (if dstEx = [] then srcEx else dstEx) = some [9])) :=
  ⟨(spec_C5_tristate_scalar mReject 1 tmpDirEx srcEx dstEx tagsEx1 sEx [1] s2Rej
      "0".toList (by rfl) (by rfl)).1 rfl,
   (spec_C5_tristate_scalar mAccept 1 tmpDirEx srcEx dstEx tagsEx1 sEx [1] s2Acc
      "1".toList (by rfl) (by rfl)).2 (Or.inl rfl) [9] (by rfl)⟩

theorem evalEv_not_sessionFsWrite (tmpDir : List Char) (ev : Ev)
    (h : evalEv ev = true) : sessionFsWrite tmpDir ev = false := by
  cases ev <;> simp_all [evalEv, sessionFsWrite]

theorem countEv_eq_zero {x : Ev} {l : List Ev} (h : ∀ ev ∈ l, ev ≠ x) :
    countEv x l = 0 := by
  induction l with
  | nil => rfl
  | cons e rest ih =>
    rw [countEv, if_neg (h e (by simp)), ih (fun ev hm => h ev (by simp [hm]))]

theorem driverEv_evalEv {ev : Ev} (h : driverEv ev = true) : evalEv ev = true := by
  cases ev <;> simp_all [driverEv, evalEv]

theorem driver_trace_driverEv {σ : Type} (g : GuestOps σ) (args : List Nat) :
    ∀ fuel (s : σ), ∀ ev ∈ (callWithAsyncify g args fuel s).2, driverEv ev = true := by
  intro fuel
  induction fuel with
  | zero => intro s ev h; simp [callWithAsyncify] at h
  | succ n ih =>
    intro s ev h
    rw [callWithAsyncify] at h
    rcases hr : (g.call s args).2 with e | results
    · simp [hr] at h
      subst h; rfl
    · simp only [hr] at h
      by_cases h0 : (g.getState (g.call s args).1).2 = 0
      · simp [h0] at h
        rcases h with h | h <;> (subst h; rfl)
      · by_cases h1 : (g.getState (g.call s args).1).2 = 1
        · simp [h0, h1] at h
          rcases h with h | h | h | h | h | h
          · subst h; rfl
          · subst h; rfl
          · subst h; rfl
          · subst h; rfl
          · subst h; rfl
          · exact ih _ ev h
        · by_cases h2 : (g.getState (g.call s args).1).2 = 2
          · simp [h0, h1, h2] at h
            rcases h with h | h | h <;> (subst h; rfl)
          · simp [h0, h1, h2] at h
            rcases h with h | h | h
            · subst h; rfl
            · subst h; rfl
            · exact ih _ ev h

theorem driver_trace_no_lock {σ : Type} (g : GuestOps σ) (args : List Nat)
    (fuel : Nat) (s : σ) :
    countEv Ev.lock (callWithAsyncify g args fuel s).2 = 0 ∧
      countEv Ev.unlock (callWithAsyncify g args fuel s).2 = 0 := by
  constructor <;>
    · apply countEv_eq_zero
      intro ev hm he
      have := driver_trace_driverEv g args fuel s ev hm
      subst he
      simp [driverEv] at this

theorem eval_trace_shape {γ : Type} (m : EvalModel γ) (fuel : Nat)
    (code : List Char) (s : Sys γ) :
    (∃ tl, (evalGo m fuel code s).2 = Ev.lock :: tl) ∧
      (∀ ev ∈ (evalGo m fuel code s).2, evalEv ev = true) ∧
      ((evalGo m fuel code s).1 ≠ none →
        countEv Ev.lock (evalGo m fuel code s).2 = 1 ∧
          countEv Ev.unlock (evalGo m fuel code s).2 = 1) := by
  rw [evalGo]
  rcases hma : (m.malloc s.guest (codeBytesOf code).length).2 with _ | p
  · simp only [hma]
    refine ⟨⟨_, rfl⟩, ?_, ?_⟩
    · intro ev h
      simp at h
      rcases h with h | h | h | h <;> (subst h; rfl)
    · intro _
      constructor <;> rfl
  · simp only [hma]
    rcases hw : m.memWrite (m.malloc s.guest (codeBytesOf code).length).1 p
        (codeBytesOf code) with _ | g2
    · simp only [hw]
      refine ⟨⟨_, rfl⟩, ?_, ?_⟩
      · intro ev h
        simp at h
        rcases h with h | h | h | h | h | h <;> (subst h; rfl)
      · intro _
        constructor <;> rfl
    · simp only [hw]
      have hdrv : ∀ ev ∈ (callWithAsyncify (evalOps m) [p, 0, 0, 0] fuel
          ⟨s.fs, [], [], g2⟩).2, evalEv ev = true :=
        fun ev h => driverEv_evalEv
          (driver_trace_driverEv (evalOps m) [p, 0, 0, 0] fuel ⟨s.fs, [], [], g2⟩ ev h)
      have hcnt := driver_trace_no_lock (evalOps m) [p, 0, 0, 0] fuel
        ⟨s.fs, [], [], g2⟩
      rcases hd : (callWithAsyncify (evalOps m) [p, 0, 0, 0] fuel
          ⟨s.fs, [], [], g2⟩).1 with _ | s3r
      · simp only [hd]
        refine ⟨⟨_, rfl⟩, ?_, ?_⟩
        · intro ev h
          simp at h
          rcases h with h | h | h | h | h
          · subst h; rfl
          · subst h; rfl
          · subst h; rfl
          · subst h; rfl
          · exact hdrv ev h
        · intro hne
          exact absurd rfl hne
      · rcases s3r with ⟨s3, e2 | v⟩
        · simp only [hd]
          refine ⟨⟨_, rfl⟩, ?_, ?_⟩
          · intro ev h
            simp at h
            rcases h with h | h | h | h | h | h | h
            · subst h; rfl
            · subst h; rfl
            · subst h; rfl
            · subst h; rfl
            · exact hdrv ev h
            · subst h; rfl
            · subst h; rfl
          · intro _
            constructor <;>
              · simp [countEv_append, countEv, hcnt.1, hcnt.2]
        · simp only [hd]
          by_cases hf : m.flushPresent = true
          · simp only [hf]
            refine ⟨⟨_, rfl⟩, ?_, ?_⟩
            · intro ev h
              simp at h
              rcases h with h | h | h | h | h | h | h | h
              · subst h; rfl
              · subst h; rfl
              · subst h; rfl
              · subst h; rfl
              · exact hdrv ev h
              · subst h; rfl
              · subst h; rfl
              · subst h; rfl
            · intro _
              constructor <;>
                · simp [countEv_append, countEv, hcnt.1, hcnt.2]
          · simp only [hf]
            refine ⟨⟨_, rfl⟩, ?_, ?_⟩
            · intro ev h
              simp at h
              rcases h with h | h | h | h | h | h | h
              · subst h; rfl
              · subst h; rfl
              · subst h; rfl
              · subst h; rfl
              · exact hdrv ev h
              · subst h; rfl
              · subst h; rfl
            · intro _
              constructor <;>
                · simp [countEv_append, countEv, hcnt.1, hcnt.2]

theorem takeWhile_append_all {p : Ev → Bool} {l1 l2 : List Ev}
    (h : ∀ a ∈ l1, p a = true) :
    (l1 ++ l2).takeWhile p = l1 ++ l2.takeWhile p := by
  induction l1 with
  | nil => simp
  | cons a rest ih =>
    simp only [List.cons_append, List.takeWhile_cons, h a (by simp)]
    simp [ih (fun x hx => h x (by simp [hx]))]

theorem lockDiscipline_shape {γ : Type} (allowed : List Ev) (tmpDir : List Char)
    (pre post : List Ev) (m : EvalModel γ) (fuel : Nat) (code : List Char)
    (s : Sys γ) (hne : (evalGo m fuel code s).1 ≠ none)
    (hpre1 : ∀ ev ∈ pre, guestTouch ev = false ∧ ev ≠ Ev.lock ∧ ev ≠ Ev.unlock)
    (hpre2 : ∀ ev ∈ pre, sessionFsWrite tmpDir ev = true → ev ∈ allowed)
    (hpost1 : ∀ ev ∈ post, ev ≠ Ev.lock ∧ ev ≠ Ev.unlock)
    (hpost2 : ∀ ev ∈ post, sessionFsWrite tmpDir ev = true → ev ∈ allowed) :
    lockDiscipline allowed tmpDir (pre ++ (evalGo m fuel code s).2 ++ post) := by
  obtain ⟨⟨tl, htl⟩, hevs, hcnt⟩ := eval_trace_shape m fuel code s
  have hc := hcnt hne
  refine ⟨?_, ?_, ?_⟩
  · rw [List.append_assoc,
      takeWhile_append_all (fun a ha => by simp [(hpre1 a ha).2.1]), htl]
    intro ev hm
    rw [List.cons_append, List.takeWhile_cons] at hm
    simp at hm
    exact (hpre1 ev hm).1
  · rw [countEv_append, countEv_append, countEv_append, countEv_append,
      countEv_eq_zero (fun ev hm => (hpre1 ev hm).2.1),
      countEv_eq_zero (fun ev hm => (hpre1 ev hm).2.2),
      countEv_eq_zero (fun ev hm => (hpost1 ev hm).1),
      countEv_eq_zero (fun ev hm => (hpost1 ev hm).2),
      hc.1, hc.2]
  · intro ev hm hw
    rcases List.mem_append.mp hm with hm | hm
    · rcases List.mem_append.mp hm with hm | hm
      · exact hpre2 ev hm hw
      · rw [evalEv_not_sessionFsWrite tmpDir ev (hevs ev hm)] at hw
        exact absurd hw (by simp)
    · exact hpost2 ev hm hw

theorem lockDiscipline_hostOnly (allowed : List Ev) (tmpDir : List Char)
    (tr : List Ev)
    (h1 : ∀ ev ∈ tr, guestTouch ev = false ∧ ev ≠ Ev.lock ∧ ev ≠ Ev.unlock)
    (h2 : ∀ ev ∈ tr, sessionFsWrite tmpDir ev = true → ev ∈ allowed) :
    lockDiscipline allowed tmpDir tr := by
  refine ⟨?_, ?_, h2⟩
  · intro ev hm
    exact (h1 ev ((List.takeWhile_sublist _).mem hm)).1
  · rw [countEv_eq_zero (fun ev hm => (h1 ev hm).2.1),
      countEv_eq_zero (fun ev hm => (h1 ev hm).2.2)]

theorem wm_lockDiscipline {γ : Type} (m : EvalModel γ) (fuel : Nat)
    (tmpDir srcPath dstPath : List Char) (tags : List (List Char × JVal))
    (s : Sys γ) (r : Sys γ × Except WmErr Unit)
    (hr : (WriteMetadata m fuel tmpDir srcPath dstPath tags s).1 = some r) :
    lockDiscipline (wmAllowed tmpDir srcPath dstPath) tmpDir
      (WriteMetadata m fuel tmpDir srcPath dstPath tags s).2 := by
  rw [WriteMetadata] at hr ⊢
  rcases hsrc : fsLookup s.fs srcPath with _ | data
  · simp only [hsrc] at hr ⊢
    apply lockDiscipline_hostOnly
    · intro ev hm
      simp at hm
      subst hm
      exact ⟨rfl, by simp, by simp⟩
    · intro ev hm hw
      simp at hm
      subst hm
      simp [sessionFsWrite] at hw
  · simp only [hsrc] at hr ⊢
    rcases he : (evalGo m fuel (writeMetadataCode (jsonMarshal tags))
        ⟨fsWrite s.fs (tmpDir ++ inputSlot) data, s.out, s.err, s.guest⟩).1 with _ | s2r
    · rw [he] at hr
      simp at hr
    · have hne : (evalGo m fuel (writeMetadataCode (jsonMarshal tags))
          ⟨fsWrite s.fs (tmpDir ++ inputSlot) data, s.out, s.err, s.guest⟩).1 ≠ none := by
        rw [he]; simp
      rcases s2r with ⟨s2, e2 | out⟩
      · dsimp only
        apply lockDiscipline_shape _ _ _ _ _ _ _ _ hne
        · intro ev hm
          simp at hm
          rcases hm with hm | hm <;> (subst hm; exact ⟨rfl, by simp, by simp⟩)
        · intro ev hm hw
          simp at hm
          rcases hm with hm | hm <;> subst hm
          · simp [sessionFsWrite] at hw
          · simp [wmAllowed]
        · intro ev hm
          simp at hm
          subst hm
          exact ⟨by simp, by simp⟩
        · intro ev hm hw
          simp at hm
          subst hm
          simp [wmAllowed]
      · dsimp only
        by_cases h0 : out = "0".toList
        · rw [if_pos h0]
          apply lockDiscipline_shape _ _ _ _ _ _ _ _ hne
          · intro ev hm
            simp at hm
            rcases hm with hm | hm <;> (subst hm; exact ⟨rfl, by simp, by simp⟩)
          · intro ev hm hw
            simp at hm
            rcases hm with hm | hm <;> subst hm
            · simp [sessionFsWrite] at hw
            · simp [wmAllowed]
          · intro ev hm
            simp at hm
            subst hm
            exact ⟨by simp, by simp⟩
          · intro ev hm hw
            simp at hm
            subst hm
            simp [wmAllowed]
        · rw [if_neg h0]
          rcases ho : fsLookup s2.fs (tmpDir ++ outputSlot) with _ | outData
          · apply lockDiscipline_shape _ _ _ _ _ _ _ _ hne
            · intro ev hm
              simp at hm
              rcases hm with hm | hm <;> (subst hm; exact ⟨rfl, by simp, by simp⟩)
            · intro ev hm hw
              simp at hm
              rcases hm with hm | hm <;> subst hm
              · simp [sessionFsWrite] at hw
              · simp [wmAllowed]
            · intro ev hm
              simp at hm
              rcases hm with hm | hm <;> (subst hm; exact ⟨by simp, by simp⟩)
            · intro ev hm hw
              simp at hm
              rcases hm with hm | hm <;> subst hm
              · simp [sessionFsWrite] at hw
              · simp [wmAllowed]
          · apply lockDiscipline_shape _ _ _ _ _ _ _ _ hne
            · intro ev hm
              simp at hm
              rcases hm with hm | hm <;> (subst hm; exact ⟨rfl, by simp, by simp⟩)
            · intro ev hm hw
              simp at hm
              rcases hm with hm | hm <;> subst hm
              · simp [sessionFsWrite] at hw
              · simp [wmAllowed]
            · intro ev hm
              simp at hm
              rcases hm with hm | hm | hm | hm <;> (subst hm; exact ⟨by simp, by simp⟩)
            · intro ev hm hw
              simp at hm
              rcases hm with hm | hm | hm | hm <;> subst hm
              · simp [sessionFsWrite] at hw
              · simp [wmAllowed]
              · simp [wmAllowed]
              · simp [wmAllowed]

theorem rm_lockDiscipline {γ : Type} (m : EvalModel γ)
    (dec : List Char → Option (List (List Char × JVal))) (fuel : Nat)
    (tmpDir filePath : List Char) (s : Sys γ)
    (r : Sys γ × Except RmErr (List (List Char × JVal)))
    (hr : (ReadMetadata m dec fuel tmpDir filePath s).1 = some r) :
    lockDiscipline (rmAllowed tmpDir) tmpDir
      (ReadMetadata m dec fuel tmpDir filePath s).2 := by
  rw [ReadMetadata] at hr ⊢
  rcases hsrc : fsLookup s.fs filePath with _ | data
  · simp only [hsrc] at hr ⊢
    apply lockDiscipline_hostOnly
    · intro ev hm
      simp at hm
      subst hm
      exact ⟨rfl, by simp, by simp⟩
    · intro ev hm hw
      simp at hm
      subst hm
      simp [sessionFsWrite] at hw
  · simp only [hsrc] at hr ⊢
    rcases he : (evalGo m fuel readCode
        ⟨fsWrite s.fs (tmpDir ++ inputSlot) data, s.out, s.err, s.guest⟩).1 with _ | s2r
    · rw [he] at hr
      simp at hr
    · have hne : (evalGo m fuel readCode
          ⟨fsWrite s.fs (tmpDir ++ inputSlot) data, s.out, s.err, s.guest⟩).1 ≠ none := by
        rw [he]; simp
      rcases s2r with ⟨s2, e2 | out⟩
      · dsimp only
        apply lockDiscipline_shape _ _ _ _ _ _ _ _ hne
        · intro ev hm
          simp at hm
          rcases hm with hm | hm <;> (subst hm; exact ⟨rfl, by simp, by simp⟩)
        · intro ev hm hw
          simp at hm
          rcases hm with hm | hm <;> subst hm
          · simp [sessionFsWrite] at hw
          · simp [rmAllowed]
        · intro ev hm
          simp at hm
          subst hm
          exact ⟨by simp, by simp⟩
        · intro ev hm hw
          simp at hm
          subst hm
          simp [rmAllowed]
      · dsimp only
        rcases hdec : dec out with _ | obj
        · apply lockDiscipline_shape _ _ _ _ _ _ _ _ hne
          · intro ev hm
            simp at hm
            rcases hm with hm | hm <;> (subst hm; exact ⟨rfl, by simp, by simp⟩)
          · intro ev hm hw
            simp at hm
            rcases hm with hm | hm <;> subst hm
            · simp [sessionFsWrite] at hw
            · simp [rmAllowed]
          · intro ev hm
            simp at hm
            subst hm
            exact ⟨by simp, by simp⟩
          · intro ev hm hw
            simp at hm
            subst hm
            simp [rmAllowed]
        · apply lockDiscipline_shape _ _ _ _ _ _ _ _ hne
          · intro ev hm
            simp at hm
            rcases hm with hm | hm <;> (subst hm; exact ⟨rfl, by simp, by simp⟩)
          · intro ev hm hw
            simp at hm
            rcases hm with hm | hm <;> subst hm
            · simp [sessionFsWrite] at hw
            · simp [rmAllowed]
          · intro ev hm
            simp at hm
            subst hm
            exact ⟨by simp, by simp⟩
          · intro ev hm hw
            simp at hm
            subst hm
            simp [rmAllowed]

theorem version_lockDiscipline {γ : Type} (m : EvalModel γ) (fuel : Nat)
    (tmpDir : List Char) (s : Sys γ) (r : Sys γ × Except EvalErr (List Char))
    (hr : (Version m fuel s).1 = some r) :
    lockDiscipline [] tmpDir (Version m fuel s).2 := by
  have h := lockDiscipline_shape ([] : List Ev) tmpDir [] [] m fuel versionCode s
    (by rw [Version] at hr; intro hno; rw [hno] at hr; simp at hr)
    (by intro ev hm; simp at hm) (by intro ev hm; simp at hm)
    (by intro ev hm; simp at hm) (by intro ev hm; simp at hm)
  rw [Version]
  simpa using h

set_option maxRecDepth 100000 in
/-- Counterexample for C9: on a concrete run, ReadMetadata writes the
session's staged input file — shared mutable host-side state beyond the two
capture buffers and the scratch data region — and it does so before the
session lock is ever acquired, as the trace prefix up to the first lock
acquisition shows. -/
theorem spec_C9_counterexample :
    ¬ (∀ ev ∈ (ReadMetadata mAccept decNone 1 tmpDirEx srcEx sEx).2,
        sessionFsWrite tmpDirEx ev = false) ∧
      (ReadMetadata mAccept decNone 1 tmpDirEx srcEx sEx).2.takeWhile
          (fun e => decide (e ≠ Ev.lock)) =
        [Ev.hostRead srcEx, Ev.hostWrite (tmpDirEx ++ inputSlot)] := by
  constructor
  · intro hall
    exact absurd (hall (Ev.hostWrite (tmpDirEx ++ inputSlot)) (by decide)) (by decide)
  · decide

/-- Claim C9 (amended): each public operation acquires the session lock
before any event that touches the capture buffers or invokes guest
functionality, lock acquisition and release balance on every completed
path, and the session-shared host-side writes are limited to the capture
buffers, the scratch data region bytes and — beyond the claim as stated —
the scratch filesystem staging slots (plus the caller-chosen destination),
which WriteMetadata and ReadMetadata write outside the lock. -/
theorem spec_C9_lock_and_shared_state {γ : Type} (m : EvalModel γ)
    (dec : List Char → Option (List (List Char × JVal))) (fuel : Nat)
    (tmpDir filePath srcPath dstPath tag value : List Char)
    (tags : List (List Char × JVal)) (s : Sys γ) :
    (∀ r, (ReadMetadata m dec fuel tmpDir filePath s).1 = some r →
        lockDiscipline (rmAllowed tmpDir) tmpDir
          (ReadMetadata m dec fuel tmpDir filePath s).2) ∧
      (∀ r, (WriteMetadata m fuel tmpDir srcPath dstPath tags s).1 = some r →
        lockDiscipline (wmAllowed tmpDir srcPath dstPath) tmpDir
          (WriteMetadata m fuel tmpDir srcPath dstPath tags s).2) ∧
      (∀ r, (SetTag m fuel tmpDir srcPath dstPath tag value s).1 = some r →
        lockDiscipline (wmAllowed tmpDir srcPath dstPath) tmpDir
          (SetTag m fuel tmpDir srcPath dstPath tag value s).2) ∧
      (∀ r, (Version m fuel s).1 = some r →
        lockDiscipline [] tmpDir (Version m fuel s).2) :=
  ⟨fun r hr => rm_lockDiscipline m dec fuel tmpDir filePath s r hr,
   fun r hr => wm_lockDiscipline m fuel tmpDir srcPath dstPath tags s r hr,
   fun r hr => wm_lockDiscipline m fuel tmpDir srcPath dstPath
     [(tag, JVal.str value)] s r hr,
   fun r hr => version_lockDiscipline m fuel tmpDir s r hr⟩

set_option maxRecDepth 100000 in
/-- Witness for C9 (amended): the lock discipline holds on concrete
completed ReadMetadata and WriteMetadata runs. -/
theorem spec_C9_witness :
    lockDiscipline (rmAllowed tmpDirEx) tmpDirEx
        (ReadMetadata mAccept decNone 1 tmpDirEx srcEx sEx).2 ∧
      lockDiscipline (wmAllowed tmpDirEx srcEx dstEx) tmpDirEx
        (WriteMetadata mAccept 1 tmpDirEx srcEx dstEx tagsEx1 sEx).2 :=
  have h := spec_C9_lock_and_shared_state mAccept decNone 1 tmpDirEx srcEx srcEx
    dstEx "Artist".toList "A".toList tagsEx1 sEx
  ⟨h.1 _ (by rfl), h.2.1 _ (by rfl)⟩

end ExifToolGo
